import Mathlib

/-
Verification development for the nl-to-dsl-strategy-compiler core:
indicator functions (indicators.py), the AST signal evaluator
(ast_to_python.py) and the trade simulator (simulator.py), embedded
shallowly over rational numbers and lists.  Price/indicator series are
lists of rationals; a pandas NaN can only arise in this code base from
`shift`, `diff` and `min_periods`, and those spots are modelled
explicitly (an `Option` value or an explicit position test), exactly
where the source produces them.
-/

namespace StratComp

/-! ### indicators.py -/

/-- The function `sma` from indicators.py: `series.rolling(window=window, min_periods=1).mean()`.
Position `i` is the mean of the trailing `min (i+1) window` observations
(`min_periods=1` shrinks the window at the start, so no position is NaN). -/
def sma (series : List ℚ) (window : ℕ) : List ℚ :=
  (List.range series.length).map fun i =>
    let seg := (series.take (i + 1)).drop (i + 1 - window)
    seg.sum / (seg.length : ℚ)

/-- Tail of the `ewm(alpha, adjust=False).mean()` recursion:
`y_i = (1 - alpha) * y_{i-1} + alpha * x_i`, given the previous output `y`. -/
def ewmFrom (alpha : ℚ) (y : ℚ) : List ℚ → List ℚ
  | [] => []
  | x :: xs =>
      let y1 := (1 - alpha) * y + alpha * x
      y1 :: ewmFrom alpha y1 xs

/-- Model of `ewm(alpha=alpha, adjust=False).mean()` on a series with no missing
values: `y_0 = x_0`, then the recursion of `ewmFrom`. -/
def ewm (alpha : ℚ) : List ℚ → List ℚ
  | [] => []
  | x :: xs => x :: ewmFrom alpha x xs

/-- Model of `series.diff()`: position 0 is missing (`none`), position `i > 0` holds
`series[i] - series[i-1]`. -/
def diffSeries (series : List ℚ) : List (Option ℚ) :=
  match series with
  | [] => []
  | _ :: _ => none :: List.zipWith (fun cur prev => some (cur - prev)) series.tail series

/-- Model of `delta.where(delta > 0, 0.0)` applied to one entry of `diffSeries`:
a missing delta compares as not-greater, so it becomes `0.0`. -/
def gainOf : Option ℚ → ℚ
  | some v => if 0 < v then v else 0
  | none => 0

/-- Model of `-delta.where(delta < 0, 0.0)` applied to one entry of `diffSeries`. -/
def lossOf : Option ℚ → ℚ
  | some v => if v < 0 then -v else 0
  | none => 0

/-- The function `rsi` from indicators.py.  `avg_gain`/`avg_loss` use
`ewm(alpha=1/window, min_periods=window, adjust=False).mean()`; the gain and
loss series have no missing values, so `min_periods` makes exactly the
positions `i` with `i + 1 < window` NaN, and the final `fillna(50)` turns
those into the neutral default 50.  Everywhere else the value is
`100 - 100 / (1 + avg_gain / (avg_loss + 1e-10))`. -/
def rsi (series : List ℚ) (window : ℕ) : List ℚ :=
  let gain := (diffSeries series).map gainOf
  let loss := (diffSeries series).map lossOf
  let avg_gain := ewm (1 / (window : ℚ)) gain
  let avg_loss := ewm (1 / (window : ℚ)) loss
  (List.range series.length).map fun i =>
    if i + 1 < window then 50
    else
      let rs := avg_gain.getD i 0 / (avg_loss.getD i 0 + 1 / 10000000000)
      100 - 100 / (1 + rs)

/-! ### ast_to_python.py : data model -/

/-- One OHLCV bar; the row of the price DataFrame at one timestamp.
Dates are modelled as naturals (ordinal timestamps). -/
structure Bar where
  date : ℕ
  «open» : ℚ
  high : ℚ
  low : ℚ
  close : ℚ
  volume : ℚ
deriving DecidableEq, Repr

/-- Column lookup `df[name]`: the sub-series of one of the five OHLCV columns, `none` for
any other name (pandas would raise a `KeyError`).  The generator's
`field_names` set is exactly the set of names on which this is `some`. -/
def getColumn (df : List Bar) (name : String) : Option (List ℚ) :=
  if name = "open" then some (df.map (·.«open»))
  else if name = "high" then some (df.map (·.high))
  else if name = "low" then some (df.map (·.low))
  else if name = "close" then some (df.map (·.close))
  else if name = "volume" then some (df.map (·.volume))
  else none

/-- Term nodes fed to `ASTCodeGenerator._evaluate_term`.  `field`, `func`
and `number` are the dict node types the generator handles; `binary` is the
arithmetic node shape of `ast_nodes.BinaryExpression` (dict type
"binary"), which falls into the generator's unknown-term-type branch. -/
inductive Term where
  | field (name : String)
  | func (name : String) (args : List Term)
  | number (value : ℚ)
  | binary (op : String) (left right : Term)

/-- Expression nodes fed to `ASTCodeGenerator._evaluate_expr`. -/
inductive Expr where
  | comparison (op : String) (left : Term) (right : Term)
  | cross (cross_type : String) (left : Term) (right : Term)
  | logicalAnd (operands : List Expr)
  | logicalOr (operands : List Expr)

/-! ### ast_to_python.py : evaluator -/

/-- Model of `ASTCodeGenerator._evaluate_term`.  Unknown field names and the
`binary` node shape are rejected, mirroring the generator's
`ValueError` branches; there is no lookback-suffix handling and no
arithmetic evaluation anywhere in the generator. -/
def evalTerm (df : List Bar) : Term → Except String (List ℚ)
  | .field name =>
      match getColumn df name with
      | some col => .ok col
      | none => .error ("Unknown field: " ++ name)
  | .func name args =>
      match args with
      | fieldNode :: periodNode :: _ =>
          match fieldNode with
          | .field fname =>
              match getColumn df fname with
              | some col =>
                  match periodNode with
                  | .number v =>
                      let period := v.floor.toNat
                      if name.toLower = "sma" then .ok (sma col period)
                      else if name.toLower = "rsi" then .ok (rsi col period)
                      else .error ("Unknown function: " ++ name.toLower)
                  | _ => .error "Function second argument must be a number"
              | none => .error ("Unknown field: " ++ fname)
          | _ => .error "Function first argument must be a field"
      | _ => .error "Function call requires two arguments"
  | .number v => .ok (List.replicate df.length v)
  | .binary _ _ _ => .error "Unknown term type: binary"

/-- Model of `ASTCodeGenerator._evaluate_comparison` applied to the two evaluated
operand series (element-wise comparison under the given operator). -/
def compareSeries (op : String) (L R : List ℚ) : Except String (List Bool) :=
  if op = ">" then .ok (List.zipWith (fun a b => decide (a > b)) L R)
  else if op = "<" then .ok (List.zipWith (fun a b => decide (a < b)) L R)
  else if op = ">=" then .ok (List.zipWith (fun a b => decide (a ≥ b)) L R)
  else if op = "<=" then .ok (List.zipWith (fun a b => decide (a ≤ b)) L R)
  else if op = "==" then .ok (List.zipWith (fun a b => decide (a = b)) L R)
  else .error ("Unknown operator: " ++ op)

/-- The cross-above series of `_evaluate_cross`:
`(left > right) & ~(left.shift(1) > right.shift(1))`.  The shifted values at
position 0 are NaN, and a NaN comparison is false, so the negated previous
condition is true there. -/
def crossAboveSeries (L R : List ℚ) : List Bool :=
  (List.range L.length).map fun i =>
    let current_above := decide (L.getD i 0 > R.getD i 0)
    let prev_above := if i = 0 then false else decide (L.getD (i - 1) 0 > R.getD (i - 1) 0)
    current_above && !prev_above

/-- The cross-below series of `_evaluate_cross`:
`(left < right) & ~(left.shift(1) < right.shift(1))`. -/
def crossBelowSeries (L R : List ℚ) : List Bool :=
  (List.range L.length).map fun i =>
    let current_below := decide (L.getD i 0 < R.getD i 0)
    let prev_below := if i = 0 then false else decide (L.getD (i - 1) 0 < R.getD (i - 1) 0)
    current_below && !prev_below

/-- The `cross_type` dispatch of `_evaluate_cross`. -/
def crossSeries (cross_type : String) (L R : List ℚ) : Except String (List Bool) :=
  if cross_type = "above" then .ok (crossAboveSeries L R)
  else if cross_type = "below" then .ok (crossBelowSeries L R)
  else .error ("Unknown cross type: " ++ cross_type)

mutual

/-- Model of `ASTCodeGenerator._evaluate_expr`: dispatch on node type; `and`/`or`
left-fold their operand lists element-wise. -/
def evalExpr (df : List Bar) : Expr → Except String (List Bool)
  | .comparison op l r => do
      let L ← evalTerm df l
      let R ← evalTerm df r
      compareSeries op L R
  | .cross ct l r => do
      let L ← evalTerm df l
      let R ← evalTerm df r
      crossSeries ct L R
  | .logicalAnd ops =>
      match ops with
      | [] => .error "and with no operands"
      | e :: rest => do
          let first ← evalExpr df e
          evalFold df (fun a b => a && b) first rest
  | .logicalOr ops =>
      match ops with
      | [] => .error "or with no operands"
      | e :: rest => do
          let first ← evalExpr df e
          evalFold df (fun a b => a || b) first rest

/-- The `for operand in operands[1:]` accumulation of `_evaluate_and` /
`_evaluate_or`. -/
def evalFold (df : List Bar) (f : Bool → Bool → Bool) (acc : List Bool) :
    List Expr → Except String (List Bool)
  | [] => .ok acc
  | e :: rest => do
      let v ← evalExpr df e
      evalFold df f (List.zipWith f acc v) rest

end

/-- The strategy AST handed to `generate_signals`: an optional entry
expression and an optional exit expression. -/
structure StrategyAst where
  entry : Option Expr
  exit : Option Expr

/-- Model of `ASTCodeGenerator.generate_signals`: evaluate each present section,
default an absent section to an all-false series. -/
def generate_signals (df : List Bar) (ast : StrategyAst) :
    Except String (List Bool × List Bool) := do
  let e ← match ast.entry with
    | some n => evalExpr df n
    | none => pure (List.replicate df.length false)
  let x ← match ast.exit with
    | some n => evalExpr df n
    | none => pure (List.replicate df.length false)
  pure (e, x)

/-! ### simulator.py -/

/-- The `Trade` record from simulator.py: exit fields and realized pnl are nullable
until the position is closed. -/
structure Trade where
  entry_date : ℕ
  exit_date : Option ℕ
  entry_price : ℚ
  exit_price : Option ℚ
  pnl : Option ℚ := none
  return_pct : Option ℚ := none
deriving DecidableEq, Repr

/-- One row of the signals DataFrame: its index label (date) and the two
boolean columns. -/
structure SigRow where
  date : ℕ
  entry : Bool
  exit : Bool
deriving DecidableEq, Repr

/-- The mutable fields of `Backtester` during a run. -/
structure SimState where
  capital : ℚ
  trades : List Trade
  equity_curve : List ℚ
  current_position : Option Trade
deriving DecidableEq, Repr

/-- The fresh `Trade` built by `Backtester._enter_position`. -/
def openedTrade (date : ℕ) (price : ℚ) : Trade :=
  { entry_date := date, exit_date := none, entry_price := price,
    exit_price := none, pnl := none, return_pct := none }

/-- Model of `Backtester._enter_position`: overwrite the current position with a
fresh open trade. -/
def enter_position (s : SimState) (date : ℕ) (price : ℚ) : SimState :=
  { s with current_position := some (openedTrade date price) }

/-- The closed form of a trade `t` exited on `date` at `price`, as filled
in by `Backtester._exit_position`: `pnl = exit − entry` and
`return_pct = pnl / entry × 100`. -/
def closedTrade (t : Trade) (date : ℕ) (price : ℚ) : Trade :=
  { t with exit_date := some date, exit_price := some price,
           pnl := some (price - t.entry_price),
           return_pct := some ((price - t.entry_price) / t.entry_price * 100) }

/-- Model of `Backtester._exit_position`: a no-op when flat; otherwise fill the exit
fields, realize pnl, compound capital by `(1 + return_pct/100)`, append the
closed trade to the ledger and clear the position. -/
def exit_position (s : SimState) (date : ℕ) (price : ℚ) : SimState :=
  match s.current_position with
  | none => s
  | some t =>
      let return_pct := (price - t.entry_price) / t.entry_price * 100
      { capital := s.capital * (1 + return_pct / 100),
        trades := s.trades ++ [closedTrade t date price],
        equity_curve := s.equity_curve,
        current_position := none }

/-- The equity value computed by `Backtester._update_equity`: when long,
the capital compounded by the unrealized return against the bar's close;
when flat, the capital itself. -/
def markToMarket (s : SimState) (current_close : ℚ) : ℚ :=
  match s.current_position with
  | some t =>
      let unrealized_return := (current_close - t.entry_price) / t.entry_price * 100
      s.capital * (1 + unrealized_return / 100)
  | none => s.capital

/-- Model of `Backtester._update_equity`: append one mark-to-market value. -/
def update_equity (s : SimState) (current_close : ℚ) : SimState :=
  { s with equity_curve := s.equity_curve ++ [markToMarket s current_close] }

/-- The first guarded block of the bar loop: when a position is open and
the previous bar's exit signal was true, exit at this bar's open. -/
def exitCheck (s : SimState) (bar : Bar) (prev_exit : Bool) : SimState :=
  if s.current_position.isSome && prev_exit
    then exit_position s bar.date bar.«open» else s

/-- The second guarded block of the bar loop: when flat and the previous
bar's entry signal was true, enter at this bar's open. -/
def entryCheck (s : SimState) (bar : Bar) (prev_entry : Bool) : SimState :=
  if s.current_position.isNone && prev_entry
    then enter_position s bar.date bar.«open» else s

/-- One iteration of the bar loop in `Backtester.run`, given the previous
bar's signals (`prev_entry`, `prev_exit`): exit check first, then entry
check, then the equity update. -/
def simStep (s : SimState) (bar : Bar) (prev_entry prev_exit : Bool) : SimState :=
  update_equity (entryCheck (exitCheck s bar prev_exit) bar prev_entry) bar.close

/-- The signal pair acted on at each bar: `(false, false)` at bar 0, then
bar `i` uses the signals row `i - 1`. -/
def prevSignalPairs (signals : List SigRow) : List (Bool × Bool) :=
  (false, false) :: signals.map (fun s => (s.entry, s.exit))

/-- The bar loop of `Backtester.run` as a left fold of `simStep`. -/
def runBars (s : SimState) : List (Bar × Bool × Bool) → SimState
  | [] => s
  | x :: xs => runBars (simStep s x.1 x.2.1 x.2.2) xs

/-- Model of `signals.reindex(df.index, fill_value=False)`: for each price-bar date
take the signals row with that label when present, otherwise a row with
both signals false. -/
def reindexSignals (df : List Bar) (signals : List SigRow) : List SigRow :=
  df.map fun b =>
    match signals.find? (fun s => s.date == b.date) with
    | some s => { date := b.date, entry := s.entry, exit := s.exit }
    | none => { date := b.date, entry := false, exit := false }

/-- The alignment step at the top of `Backtester.run`: signals are used
as-is when their index equals the price index, and otherwise are silently
reindexed to it with false filled in. -/
def alignSignals (df : List Bar) (signals : List SigRow) : List SigRow :=
  if df.map (·.date) = signals.map (·.date) then signals
  else reindexSignals df signals

/-- The reset state at the top of `Backtester.run`: the initial capital, an
empty ledger, the equity curve seeded with the initial capital, no open
position. -/
def initState (initial_capital : ℚ) : SimState :=
  { capital := initial_capital, trades := [],
    equity_curve := [initial_capital], current_position := none }

/-- The state after the bar loop of `Backtester.run`, before the end-of-series
force close. -/
def runLoopState (initial_capital : ℚ) (df : List Bar) (signals : List SigRow) :
    SimState :=
  runBars (initState initial_capital)
    (df.zip (prevSignalPairs (alignSignals df signals)))

/-- The end-of-series block of `Backtester.run`: close any open position at
the final bar's close price and final date. -/
def forceClose (df : List Bar) (s : SimState) : SimState :=
  match s.current_position with
  | some _ =>
      match df.getLast? with
      | some b => exit_position s b.date b.close
      | none => s
  | none => s

/-- The final state of a run: loop, then force close. -/
def runState (initial_capital : ℚ) (df : List Bar) (signals : List SigRow) :
    SimState :=
  forceClose df (runLoopState initial_capital df signals)

/-- Model of `Backtester.run`.  In this embedding the OHLCV and signal column
checks always pass (`Bar` and `SigRow` carry every column by type), so the
only data-dependent step before the loop is the index-alignment branch,
and the run always returns a full result. -/
def run (initial_capital : ℚ) (df : List Bar) (signals : List SigRow) :
    Except String SimState :=
  .ok (runState initial_capital df signals)

/-! ### Helper lemmas -/

/-- A fixed two-bar OHLCV sample used by the concrete counterexamples and
witnesses below; its close series is `[150, 90]`. -/
def sampleDf : List Bar :=
  [{ date := 0, «open» := 10, high := 11, low := 9, close := 150, volume := 1000 },
   { date := 1, «open» := 10, high := 11, low := 9, close := 90, volume := 1000 }]

/-- Misaligned signals: one row whose date 5 appears nowhere in
`sampleDf`'s index `[0, 1]`. -/
def misSignals : List SigRow := [{ date := 5, entry := true, exit := false }]

/-- Claim C6 witness: the theorem applied to a concrete long state. -/
def tradeC6 : Trade :=
  { entry_date := 0, exit_date := none, entry_price := 10,
    exit_price := none, pnl := none, return_pct := none }

def stateC6 : SimState :=
  { capital := 100000, trades := [], equity_curve := [100000],
    current_position := some tradeC6 }

def barC6 : Bar := { date := 1, «open» := 20, high := 21, low := 19, close := 22, volume := 1000 }

/-- The first trade ever opened in a run has entry date `d` and entry
price `p`: either no trade has closed yet and it is still the open
position, or it is the head of the append-only ledger. -/
def FirstTradeIs (s : SimState) (d : ℕ) (p : ℚ) : Prop :=
  (s.trades = [] ∧ ∃ t, s.current_position = some t ∧ t.entry_date = d ∧ t.entry_price = p)
  ∨ (∃ t, s.trades.head? = some t ∧ t.entry_date = d ∧ t.entry_price = p)

/-- A three-bar price series and aligned signals whose entry signal is
first true at bar 0: the trade opens at bar 1 (open 20, date 1). -/
def dfC5 : List Bar :=
  [{ date := 0, «open» := 10, high := 11, low := 9, close := 12, volume := 1000 },
   { date := 1, «open» := 20, high := 21, low := 19, close := 22, volume := 1000 },
   { date := 2, «open» := 30, high := 31, low := 29, close := 28, volume := 1000 }]

def sigC5 : List SigRow :=
  [{ date := 0, entry := true, exit := false },
   { date := 1, entry := false, exit := false },
   { date := 2, entry := false, exit := false }]

/-- Every trade in the list carries all four realized exit fields. -/
def AllClosed (l : List Trade) : Prop :=
  ∀ t ∈ l, t.exit_date.isSome ∧ t.exit_price.isSome ∧ t.pnl.isSome ∧ t.return_pct.isSome

/-- A two-bar run that ends long: entry signal at bar 0 opens at bar 1
(open 20), no exit signal, so the force close realizes at bar 1's close 22. -/
def dfC8 : List Bar :=
  [{ date := 0, «open» := 10, high := 11, low := 9, close := 12, volume := 1000 },
   { date := 1, «open» := 20, high := 21, low := 19, close := 22, volume := 1000 }]

def sigC8 : List SigRow :=
  [{ date := 0, entry := true, exit := false },
   { date := 1, entry := false, exit := false }]

lemma rangeMap_getD {α : Type} (f : ℕ → α) (n i : ℕ) (d : α) (h : i < n) :
    ((List.range n).map f).getD i d = f i := by
  rw [List.getD_eq_getElem _ _ (by simpa using h)]
  simp

/-! ### Lemmas on the RSI gain and loss series -/

lemma diff_map_gain (series : List ℚ) (hne : series ≠ []) :
    (diffSeries series).map gainOf
      = 0 :: List.zipWith (fun cur prev => if 0 < cur - prev then cur - prev else 0)
          series.tail series := by
  cases series with
  | nil => exact absurd rfl hne
  | cons a t => simp [diffSeries, gainOf, List.map_zipWith]

lemma diff_map_loss (series : List ℚ) (hne : series ≠ []) :
    (diffSeries series).map lossOf
      = 0 :: List.zipWith (fun cur prev => if cur - prev < 0 then -(cur - prev) else 0)
          series.tail series := by
  cases series with
  | nil => exact absurd rfl hne
  | cons a t => simp [diffSeries, lossOf, List.map_zipWith]

lemma getColumn_length (df : List Bar) (name : String) (col : List ℚ)
    (h : getColumn df name = some col) : col.length = df.length := by
  unfold getColumn at h
  repeat' split at h
  all_goals first
    | exact Option.noConfusion h
    | (injection h with h
       subst h
       simp)

lemma evalTerm_length (df : List Bar) (t : Term) (L : List ℚ)
    (h : evalTerm df t = Except.ok L) : L.length = df.length := by
  cases t with
  | field name =>
      simp only [evalTerm] at h
      split at h
      · injection h with h
        subst h
        exact getColumn_length _ _ _ (by assumption)
      · exact Except.noConfusion h
  | func name args =>
      simp only [evalTerm] at h
      repeat' split at h
      all_goals first
        | exact Except.noConfusion h
        | (injection h with h
           subst h
           simp only [sma, rsi, List.length_map, List.length_range]
           exact getColumn_length _ _ _ (by assumption))
  | number v =>
      simp only [evalTerm] at h
      injection h with h
      subst h
      simp
  | binary op l r => exact Except.noConfusion h

lemma evalExpr_cross (df : List Bar) (ct : String) (l r : Term) (L R : List ℚ)
    (hL : evalTerm df l = Except.ok L) (hR : evalTerm df r = Except.ok R) :
    evalExpr df (.cross ct l r) = crossSeries ct L R := by
  simp only [evalExpr]
  rw [hL, hR]
  rfl

lemma update_equity_trades (s : SimState) (c : ℚ) :
    (update_equity s c).trades = s.trades := rfl

lemma update_equity_position (s : SimState) (c : ℚ) :
    (update_equity s c).current_position = s.current_position := rfl

lemma exit_position_equity (s : SimState) (d : ℕ) (p : ℚ) :
    (exit_position s d p).equity_curve = s.equity_curve := by
  unfold exit_position
  split <;> rfl

lemma exitCheck_equity (s : SimState) (bar : Bar) (px : Bool) :
    (exitCheck s bar px).equity_curve = s.equity_curve := by
  unfold exitCheck
  split
  · exact exit_position_equity s bar.date bar.«open»
  · rfl

lemma entryCheck_equity (s : SimState) (bar : Bar) (pe : Bool) :
    (entryCheck s bar pe).equity_curve = s.equity_curve := by
  unfold entryCheck
  split <;> rfl

lemma simStep_equity (s : SimState) (bar : Bar) (pe px : Bool) :
    ∃ v, (simStep s bar pe px).equity_curve = s.equity_curve ++ [v] :=
  ⟨markToMarket (entryCheck (exitCheck s bar px) bar pe) bar.close, by
    show (entryCheck (exitCheck s bar px) bar pe).equity_curve ++ _ = _
    rw [entryCheck_equity, exitCheck_equity]⟩

lemma runBars_equity_length (l : List (Bar × Bool × Bool)) (s : SimState) :
    (runBars s l).equity_curve.length = s.equity_curve.length + l.length := by
  induction l generalizing s with
  | nil => rfl
  | cons x xs ih =>
      show (runBars (simStep s x.1 x.2.1 x.2.2) xs).equity_curve.length = _
      rw [ih]
      obtain ⟨v, hv⟩ := simStep_equity s x.1 x.2.1 x.2.2
      rw [hv]
      simp
      omega

lemma runBars_equity_head (l : List (Bar × Bool × Bool)) (s : SimState) (a : ℚ)
    (h : s.equity_curve.head? = some a) :
    (runBars s l).equity_curve.head? = some a := by
  induction l generalizing s with
  | nil => exact h
  | cons x xs ih =>
      refine ih _ ?_
      obtain ⟨v, hv⟩ := simStep_equity s x.1 x.2.1 x.2.2
      rw [hv, List.head?_append, h]
      rfl

lemma forceClose_equity (df : List Bar) (s : SimState) :
    (forceClose df s).equity_curve = s.equity_curve := by
  unfold forceClose
  split
  · split
    · rw [exit_position_equity]
    · rfl
  · rfl

lemma reindex_dates (df : List Bar) (signals : List SigRow) :
    (reindexSignals df signals).map (·.date) = df.map (·.date) := by
  simp only [reindexSignals, List.map_map]
  apply List.map_congr_left
  intro b _
  cases h : signals.find? (fun s => s.date == b.date) <;> simp [h]

lemma alignSignals_length (df : List Bar) (signals : List SigRow) :
    (alignSignals df signals).length = df.length := by
  unfold alignSignals
  split
  · rename_i hal
    have := congrArg List.length hal
    simpa using this.symm
  · simp [reindexSignals]

/-! ### First-trade tracking lemmas -/

lemma exit_position_firstTrade (s : SimState) (dt : ℕ) (pr : ℚ) (d : ℕ) (p : ℚ)
    (h : FirstTradeIs s d p) : FirstTradeIs (exit_position s dt pr) d p := by
  unfold exit_position
  cases hpos : s.current_position with
  | none => exact h
  | some t =>
      rcases h with ⟨htr, t1, hpos1, hd, hp⟩ | ⟨t1, hh, hd, hp⟩
      · rw [hpos] at hpos1
        injection hpos1 with hpos1
        subst hpos1
        right
        exact ⟨closedTrade t dt pr, by simp [htr], hd, hp⟩
      · right
        refine ⟨t1, ?_, hd, hp⟩
        show (s.trades ++ [closedTrade t dt pr]).head? = some t1
        rw [List.head?_append, hh]
        rfl

lemma update_equity_firstTrade (s : SimState) (c : ℚ) (d : ℕ) (p : ℚ)
    (h : FirstTradeIs s d p) : FirstTradeIs (update_equity s c) d p := h

lemma exitCheck_firstTrade (s : SimState) (bar : Bar) (px : Bool) (d : ℕ) (p : ℚ)
    (h : FirstTradeIs s d p) : FirstTradeIs (exitCheck s bar px) d p := by
  unfold exitCheck
  split
  · exact exit_position_firstTrade s bar.date bar.«open» d p h
  · exact h

lemma entryCheck_firstTrade (s : SimState) (bar : Bar) (pe : Bool) (d : ℕ) (p : ℚ)
    (h : FirstTradeIs s d p) : FirstTradeIs (entryCheck s bar pe) d p := by
  unfold entryCheck
  split
  · rename_i hc
    rw [Bool.and_eq_true, Option.isNone_iff_eq_none] at hc
    rcases h with ⟨htr, t1, hpos1, hd, hp⟩ | ⟨t1, hh, hd, hp⟩
    · rw [hc.1] at hpos1
      exact Option.noConfusion hpos1
    · exact Or.inr ⟨t1, hh, hd, hp⟩
  · exact h

lemma simStep_firstTrade (s : SimState) (bar : Bar) (pe px : Bool) (d : ℕ) (p : ℚ)
    (h : FirstTradeIs s d p) : FirstTradeIs (simStep s bar pe px) d p :=
  update_equity_firstTrade _ _ _ _
    (entryCheck_firstTrade _ _ _ _ _ (exitCheck_firstTrade _ _ _ _ _ h))

lemma runBars_firstTrade (l : List (Bar × Bool × Bool)) (s : SimState) (d : ℕ) (p : ℚ)
    (h : FirstTradeIs s d p) : FirstTradeIs (runBars s l) d p := by
  induction l generalizing s with
  | nil => exact h
  | cons x xs ih => exact ih _ (simStep_firstTrade _ _ _ _ _ _ h)

lemma forceClose_firstTrade (df : List Bar) (s : SimState) (d : ℕ) (p : ℚ)
    (h : FirstTradeIs s d p) : FirstTradeIs (forceClose df s) d p := by
  unfold forceClose
  split
  · split
    · exact exit_position_firstTrade _ _ _ _ _ h
    · exact h
  · exact h

lemma firstTrade_head (s : SimState) (d : ℕ) (p : ℚ) (h : FirstTradeIs s d p)
    (hpos : s.current_position = none) :
    ∃ t, s.trades.head? = some t ∧ t.entry_date = d ∧ t.entry_price = p := by
  rcases h with ⟨_, t, ht, _⟩ | h
  · rw [hpos] at ht
    exact Option.noConfusion ht
  · exact h

lemma simStep_flat_no_entry (s : SimState) (bar : Bar) (px : Bool)
    (h : s.current_position = none) :
    (simStep s bar false px).current_position = none ∧
    (simStep s bar false px).trades = s.trades := by
  simp [simStep, exitCheck, entryCheck, update_equity, h]

lemma simStep_flat_entry (s : SimState) (bar : Bar) (px : Bool)
    (h : s.current_position = none) :
    (simStep s bar true px).current_position = some (openedTrade bar.date bar.«open») ∧
    (simStep s bar true px).trades = s.trades := by
  simp [simStep, exitCheck, entryCheck, enter_position, update_equity, h]

lemma runBars_flat (l : List (Bar × Bool × Bool)) (s : SimState)
    (hflags : ∀ p ∈ l, p.2.1 = false) (h : s.current_position = none) :
    (runBars s l).current_position = none ∧ (runBars s l).trades = s.trades := by
  induction l generalizing s with
  | nil => exact ⟨h, rfl⟩
  | cons x xs ih =>
      have hx : x.2.1 = false := hflags x (List.mem_cons_self _ _)
      show (runBars (simStep s x.1 x.2.1 x.2.2) xs).current_position = none ∧
           (runBars (simStep s x.1 x.2.1 x.2.2) xs).trades = s.trades
      rw [hx]
      obtain ⟨h1, h2⟩ := simStep_flat_no_entry s x.1 x.2.2 h
      obtain ⟨ih1, ih2⟩ := ih _ (fun q hq => hflags q (List.mem_cons_of_mem _ hq)) h1
      exact ⟨ih1, ih2.trans h2⟩

lemma runBars_nil_of_flat (l : List (Bar × Bool × Bool)) (s : SimState) (t : Trade)
    (h : s.current_position = none) (hl : l = []) :
    (runBars s l).current_position ≠ some t := by
  subst hl
  rw [show runBars s [] = s from rfl, h]
  exact fun hc => Option.noConfusion hc

lemma runState_position_none (initial_capital : ℚ) (df : List Bar) (signals : List SigRow) :
    (runState initial_capital df signals).current_position = none := by
  unfold runState forceClose
  split
  · rename_i t hpos
    split
    · rename_i b hb
      simp [exit_position, hpos]
    · rename_i hb
      exfalso
      have hdf : df = [] := by
        cases df with
        | nil => rfl
        | cons a l => simp at hb
      rw [runLoopState, hdf] at hpos
      exact Option.noConfusion hpos
  · rename_i hpos
    exact hpos

lemma runBars_append (s : SimState) (l1 l2 : List (Bar × Bool × Bool)) :
    runBars s (l1 ++ l2) = runBars (runBars s l1) l2 := by
  induction l1 generalizing s with
  | nil => rfl
  | cons x xs ih => exact ih _

lemma exit_position_allClosed (s : SimState) (d : ℕ) (p : ℚ)
    (h : AllClosed s.trades) : AllClosed (exit_position s d p).trades := by
  unfold exit_position
  cases hpos : s.current_position with
  | none => exact h
  | some t =>
      intro u hu
      rw [List.mem_append] at hu
      rcases hu with hu | hu
      · exact h u hu
      · rw [List.mem_singleton] at hu
        subst hu
        simp [closedTrade]

lemma simStep_allClosed (s : SimState) (bar : Bar) (pe px : Bool)
    (h : AllClosed s.trades) : AllClosed (simStep s bar pe px).trades := by
  have h1 : AllClosed (exitCheck s bar px).trades := by
    unfold exitCheck
    split
    · exact exit_position_allClosed s _ _ h
    · exact h
  have h2 : AllClosed (entryCheck (exitCheck s bar px) bar pe).trades := by
    unfold entryCheck
    split
    · exact h1
    · exact h1
  exact h2

lemma runBars_allClosed (l : List (Bar × Bool × Bool)) (s : SimState)
    (h : AllClosed s.trades) : AllClosed (runBars s l).trades := by
  induction l generalizing s with
  | nil => exact h
  | cons x xs ih => exact ih _ (simStep_allClosed _ _ _ _ h)

lemma forceClose_allClosed (df : List Bar) (s : SimState)
    (h : AllClosed s.trades) : AllClosed (forceClose df s).trades := by
  unfold forceClose
  split
  · split
    · exact exit_position_allClosed _ _ _ h
    · exact h
  · exact h

/-! ### Claims C9 and C10: the indicator functions -/

/-- Claim C9: for every input series with no missing values and window
`w ≥ 1`, `sma` is defined at every position; at a position `i` with fewer
than `w` prior observations (`i + 1 < w`) it is the mean of the first
`i + 1` observations, and at every other position the mean of the trailing
`w` observations. -/
theorem sma_graceful (series : List ℚ) (window : ℕ) (hw : 1 ≤ window) :
    (sma series window).length = series.length ∧
    (∀ i, i < series.length → i + 1 < window →
      (sma series window).getD i 0 = (series.take (i + 1)).sum / ((i + 1 : ℕ) : ℚ)) ∧
    (∀ i, i < series.length → window ≤ i + 1 →
      (sma series window).getD i 0
        = ((series.drop (i + 1 - window)).take window).sum / ((window : ℕ) : ℚ)) := by
  refine ⟨by simp [sma], ?_, ?_⟩
  · intro i hi hiw
    rw [sma, rangeMap_getD _ _ _ _ hi]
    have h0 : i + 1 - window = 0 := Nat.sub_eq_zero_of_le (le_of_lt hiw)
    have hlen : ((series.take (i + 1)).drop (i + 1 - window)).length = i + 1 := by
      rw [h0, List.drop_zero, List.length_take]
      omega
    show ((series.take (i + 1)).drop (i + 1 - window)).sum
        / (((series.take (i + 1)).drop (i + 1 - window)).length : ℚ)
      = (series.take (i + 1)).sum / ((i + 1 : ℕ) : ℚ)
    rw [hlen, h0, List.drop_zero]
  · intro i hi hwi
    rw [sma, rangeMap_getD _ _ _ _ hi]
    have hseg : (series.take (i + 1)).drop (i + 1 - window)
        = (series.drop (i + 1 - window)).take window := by
      rw [List.drop_take]
      congr 1
      omega
    have hlen : ((series.take (i + 1)).drop (i + 1 - window)).length = window := by
      rw [List.length_drop, List.length_take]
      omega
    show ((series.take (i + 1)).drop (i + 1 - window)).sum
        / (((series.take (i + 1)).drop (i + 1 - window)).length : ℚ)
      = ((series.drop (i + 1 - window)).take window).sum / ((window : ℕ) : ℚ)
    rw [hlen, hseg]

/-- Claim C9 witness: the general theorem instantiated at the series
`[1, 2, 3, 4]` with window 2, early position 0 and steady-state position 3. -/
theorem sma_graceful_witness :
    (1 ≤ 2) ∧
    (sma [(1 : ℚ), 2, 3, 4] 2).getD 0 0
      = ([(1 : ℚ), 2, 3, 4].take 1).sum / ((1 : ℕ) : ℚ) ∧
    (sma [(1 : ℚ), 2, 3, 4] 2).getD 3 0
      = (([(1 : ℚ), 2, 3, 4].drop 2).take 2).sum / ((2 : ℕ) : ℚ) :=
  ⟨by decide,
   (sma_graceful [(1 : ℚ), 2, 3, 4] 2 (by decide)).2.1 0 (by decide) (by decide),
   (sma_graceful [(1 : ℚ), 2, 3, 4] 2 (by decide)).2.2 3 (by decide) (by decide)⟩

/-- Claim C10: for every input series and window `w ≥ 1`, positions with at
least `w` observations carry `100 - 100/(1 + avg_gain/(avg_loss + 1e-10))`,
where `avg_gain`/`avg_loss` are the `alpha = 1/w`, `adjust=False`
exponentially weighted moving averages of the clipped per-bar deltas (the
first, undefined delta clipping to 0 gain and 0 loss); every position with
fewer than `w` observations carries exactly the neutral default 50. -/
theorem rsi_spec (series : List ℚ) (window : ℕ) (hw : 1 ≤ window) :
    (rsi series window).length = series.length ∧
    (∀ i, i < series.length → i + 1 < window → (rsi series window).getD i 0 = 50) ∧
    (∀ i, i < series.length → window ≤ i + 1 →
      (rsi series window).getD i 0 =
        100 - 100 / (1 +
          (ewm (1 / (window : ℚ))
              (0 :: List.zipWith (fun cur prev => if 0 < cur - prev then cur - prev else 0)
                series.tail series)).getD i 0 /
          ((ewm (1 / (window : ℚ))
              (0 :: List.zipWith (fun cur prev => if cur - prev < 0 then -(cur - prev) else 0)
                series.tail series)).getD i 0 + 1 / 10000000000))) := by
  refine ⟨by simp [rsi], ?_, ?_⟩
  · intro i hi hiw
    simp only [rsi]
    rw [rangeMap_getD _ _ _ _ hi]
    simp [hiw]
  · intro i hi hwi
    have hne : series ≠ [] := by
      intro h
      rw [h] at hi
      simp at hi
    simp only [rsi]
    rw [rangeMap_getD _ _ _ _ hi, if_neg (by omega),
        diff_map_gain series hne, diff_map_loss series hne]

/-- Claim C10 witness: the general theorem instantiated on the series
`[1, 2, 3, 2, 4]` with window 2, at the defaulted position 0 and the defined
position 1. -/
theorem rsi_spec_witness :
    (1 ≤ 2) ∧
    (rsi [(1 : ℚ), 2, 3, 2, 4] 2).getD 0 0 = 50 ∧
    (rsi [(1 : ℚ), 2, 3, 2, 4] 2).getD 1 0 =
      100 - 100 / (1 +
        (ewm (1 / ((2 : ℕ) : ℚ))
            (0 :: List.zipWith (fun cur prev => if 0 < cur - prev then cur - prev else 0)
              [(1 : ℚ), 2, 3, 2, 4].tail [(1 : ℚ), 2, 3, 2, 4])).getD 1 0 /
        ((ewm (1 / ((2 : ℕ) : ℚ))
            (0 :: List.zipWith (fun cur prev => if cur - prev < 0 then -(cur - prev) else 0)
              [(1 : ℚ), 2, 3, 2, 4].tail [(1 : ℚ), 2, 3, 2, 4])).getD 1 0 + 1 / 10000000000)) :=
  ⟨by decide,
   (rsi_spec [(1 : ℚ), 2, 3, 2, 4] 2 (by decide)).2.1 0 (by decide) (by decide),
   (rsi_spec [(1 : ℚ), 2, 3, 2, 4] 2 (by decide)).2.2 1 (by decide) (by decide)⟩

/-! ### Claims C1, C3, C4: the signal evaluator -/

/-- Claim C1 counterexample: on `sampleDf` the entry expression
`close crosses above 100` has `close[0] = 150 > 100`, and the evaluated
entry series is `[true, false]` — true, not false, at position 0 (and the
symmetric below-cross against 200 is also true at position 0). -/
theorem cross_pos0_counterexample :
    generate_signals sampleDf
        { entry := some (.cross "above" (.field "close") (.number 100)), exit := none }
      = Except.ok ([true, false], [false, false]) ∧
    generate_signals sampleDf
        { entry := some (.cross "below" (.field "close") (.number 200)), exit := none }
      = Except.ok ([true, false], [false, false]) := ⟨rfl, rfl⟩

/-- Claim C1 (amended): evaluating a Cross node yields, at position 0, the
current relation itself — `left[0] > right[0]` for CROSS_ABOVE and
`left[0] < right[0]` for CROSS_BELOW (the shifted previous-bar values are
missing there and compare as false, so the negated previous condition
holds) — hence position 0 is false exactly when the left operand is not
already above (respectively below) the right operand at position 0. -/
theorem cross_pos0 (df : List Bar) (l r : Term) (L R : List ℚ)
    (hL : evalTerm df l = Except.ok L) (hR : evalTerm df r = Except.ok R) :
    evalExpr df (.cross "above" l r) = Except.ok (crossAboveSeries L R) ∧
    evalExpr df (.cross "below" l r) = Except.ok (crossBelowSeries L R) ∧
    (crossAboveSeries L R).getD 0 false = decide (L.getD 0 0 > R.getD 0 0) ∧
    (crossBelowSeries L R).getD 0 false = decide (L.getD 0 0 < R.getD 0 0) := by
  have hlenL := evalTerm_length df l L hL
  have hlenR := evalTerm_length df r R hR
  refine ⟨?_, ?_, ?_, ?_⟩
  · rw [evalExpr_cross df "above" l r L R hL hR]
    rfl
  · rw [evalExpr_cross df "below" l r L R hL hR]
    rfl
  · cases L with
    | nil =>
        cases R with
        | nil => rfl
        | cons b rb =>
            simp only [List.length_nil] at hlenL
            simp only [List.length_cons] at hlenR
            omega
    | cons a ra => simp [crossAboveSeries, List.range_succ_eq_map]
  · cases L with
    | nil =>
        cases R with
        | nil => rfl
        | cons b rb =>
            simp only [List.length_nil] at hlenL
            simp only [List.length_cons] at hlenR
            omega
    | cons a ra => simp [crossBelowSeries, List.range_succ_eq_map]

/-- Claim C1 (amended) witness: the amended theorem applied on `sampleDf`
to `close crosses above 100`, whose position-0 value is the current
comparison `150 > 100`. -/
theorem cross_pos0_witness :
    evalExpr sampleDf (.cross "above" (.field "close") (.number 100))
      = Except.ok (crossAboveSeries [(150 : ℚ), 90] [(100 : ℚ), 100]) ∧
    (crossAboveSeries [(150 : ℚ), 90] [(100 : ℚ), 100]).getD 0 false
      = decide ([(150 : ℚ), 90].getD 0 0 > [(100 : ℚ), 100].getD 0 0) :=
  ⟨(cross_pos0 sampleDf (.field "close") (.number 100) [(150 : ℚ), 90]
      [(100 : ℚ), 100] rfl rfl).1,
   (cross_pos0 sampleDf (.field "close") (.number 100) [(150 : ℚ), 90]
      [(100 : ℚ), 100] rfl rfl).2.2.1⟩

/-- Claim C3 counterexample: evaluating the lookback identifiers
`close_yesterday` and `close_last_week` on `sampleDf` fails with an
unknown-field error instead of yielding a shifted sub-series. -/
theorem lookback_counterexample :
    evalTerm sampleDf (.field "close_yesterday")
      = Except.error "Unknown field: close_yesterday" ∧
    evalTerm sampleDf (.field "close_last_week")
      = Except.error "Unknown field: close_last_week" := ⟨rfl, rfl⟩

/-- Claim C3 (amended): the evaluator implements no lookback transform —
for every OHLCV series, a field identifier with a `_yesterday` or
`_last_week` suffix (on any of the five base fields) is rejected with an
unknown-field error, while each bare base field evaluates to its own,
unshifted sub-series. -/
theorem lookback_fields_rejected (df : List Bar) :
    (evalTerm df (.field "open_yesterday")
        = Except.error "Unknown field: open_yesterday" ∧
     evalTerm df (.field "high_yesterday")
        = Except.error "Unknown field: high_yesterday" ∧
     evalTerm df (.field "low_yesterday")
        = Except.error "Unknown field: low_yesterday" ∧
     evalTerm df (.field "close_yesterday")
        = Except.error "Unknown field: close_yesterday" ∧
     evalTerm df (.field "volume_yesterday")
        = Except.error "Unknown field: volume_yesterday") ∧
    (evalTerm df (.field "open_last_week")
        = Except.error "Unknown field: open_last_week" ∧
     evalTerm df (.field "high_last_week")
        = Except.error "Unknown field: high_last_week" ∧
     evalTerm df (.field "low_last_week")
        = Except.error "Unknown field: low_last_week" ∧
     evalTerm df (.field "close_last_week")
        = Except.error "Unknown field: close_last_week" ∧
     evalTerm df (.field "volume_last_week")
        = Except.error "Unknown field: volume_last_week") ∧
    (evalTerm df (.field "open") = Except.ok (df.map (·.«open»)) ∧
     evalTerm df (.field "high") = Except.ok (df.map (·.high)) ∧
     evalTerm df (.field "low") = Except.ok (df.map (·.low)) ∧
     evalTerm df (.field "close") = Except.ok (df.map (·.close)) ∧
     evalTerm df (.field "volume") = Except.ok (df.map (·.volume))) :=
  ⟨⟨rfl, rfl, rfl, rfl, rfl⟩, ⟨rfl, rfl, rfl, rfl, rfl⟩, ⟨rfl, rfl, rfl, rfl, rfl⟩⟩

/-- Claim C4 counterexample: a Binary arithmetic node offered as a term —
here `close + 1` — is not evaluated element-wise on `sampleDf`; it fails
with an unknown-term-type error. -/
theorem binary_counterexample :
    evalTerm sampleDf (.binary "+" (.field "close") (.number 1))
      = Except.error "Unknown term type: binary" := rfl

/-- Claim C4 (amended): the evaluator does not accept Binary nodes as
terms at all — every Binary arithmetic node, whatever its operator and
operands, fails with an unknown-term-type error, so no element-wise
arithmetic (and no division-by-zero guard) exists in the signal
evaluator. -/
theorem binary_terms_rejected (df : List Bar) (op : String) (l r : Term) :
    evalTerm df (.binary op l r) = Except.error "Unknown term type: binary" := rfl

/-! ### Claim C2: signal alignment in the run entry point -/

/-- Claim C2 counterexample: on `sampleDf` (index `[0, 1]`) and a signal
series with index `[5]`, the run entry point does not fail — it returns a
full, ordinary result (the misaligned entry signal being dropped to
false everywhere). -/
theorem misaligned_counterexample :
    sampleDf.map (·.date) ≠ misSignals.map (·.date) ∧
    run 100000 sampleDf misSignals = Except.ok
      { capital := 100000, trades := [],
        equity_curve := [100000, 100000, 100000], current_position := none } :=
  ⟨by decide, rfl⟩

/-- Claim C2 (amended): the run entry point never fails on misaligned
signal series; whenever the signal index differs from the price index it
silently re-aligns the signals to the price index (missing dates filled
with false) and returns the full results of the re-aligned run. -/
theorem run_realigns (initial_capital : ℚ) (df : List Bar) (signals : List SigRow) :
    run initial_capital df signals = Except.ok (runState initial_capital df signals) ∧
    (df.map (·.date) ≠ signals.map (·.date) →
      run initial_capital df signals
        = run initial_capital df (reindexSignals df signals)) := by
  refine ⟨rfl, fun hne => ?_⟩
  unfold run runState runLoopState alignSignals
  rw [if_neg hne, if_pos (reindex_dates df signals).symm]

/-- Claim C2 (amended) witness: the amended theorem applied to the
concrete misaligned input. -/
theorem run_realigns_witness :
    run 100000 sampleDf misSignals
      = run 100000 sampleDf (reindexSignals sampleDf misSignals) :=
  (run_realigns 100000 sampleDf misSignals).2 (by decide)

/-! ### Claim C6: same-bar exit and re-entry -/

/-- Claim C6: at a bar whose previous-bar exit and entry signals are both
true, a long position is closed first — at the bar's open, appended to the
ledger — and a new position is opened at the same bar's open, ending the
bar long with the ledger one trade longer. -/
theorem exit_then_reentry (s : SimState) (bar : Bar) (t : Trade)
    (h : s.current_position = some t) :
    (simStep s bar true true).trades
      = s.trades ++ [closedTrade t bar.date bar.«open»] ∧
    (simStep s bar true true).current_position
      = some (openedTrade bar.date bar.«open») ∧
    (simStep s bar true true).trades.length = s.trades.length + 1 := by
  simp [simStep, exitCheck, entryCheck, exit_position, enter_position, update_equity, h]

theorem exit_then_reentry_witness :
    (simStep stateC6 barC6 true true).trades
      = stateC6.trades ++ [closedTrade tradeC6 barC6.date barC6.«open»] ∧
    (simStep stateC6 barC6 true true).current_position
      = some (openedTrade barC6.date barC6.«open») ∧
    (simStep stateC6 barC6 true true).trades.length = stateC6.trades.length + 1 :=
  exit_then_reentry stateC6 barC6 tradeC6 rfl

/-! ### Claim C7: equity curve length invariant -/

/-- Claim C7: every run's equity curve has exactly `len(price series) + 1`
entries, its first entry is the initial capital, and every bar — whatever
transition it takes — appends exactly one equity value. -/
theorem equity_curve_invariant (initial_capital : ℚ) (df : List Bar) (signals : List SigRow) :
    (runState initial_capital df signals).equity_curve.length = df.length + 1 ∧
    (runState initial_capital df signals).equity_curve.head? = some initial_capital ∧
    (∀ (s : SimState) (bar : Bar) (pe px : Bool),
        (simStep s bar pe px).equity_curve.length = s.equity_curve.length + 1) := by
  refine ⟨?_, ?_, ?_⟩
  · unfold runState runLoopState
    rw [forceClose_equity, runBars_equity_length]
    simp [initState, prevSignalPairs, alignSignals_length df signals]
    omega
  · unfold runState runLoopState
    rw [forceClose_equity]
    exact runBars_equity_head _ _ _ rfl
  · intro s bar pe px
    obtain ⟨v, hv⟩ := simStep_equity s bar pe px
    rw [hv]
    simp

/-! ### Claims C5 and C8: state-machine invariants of the run -/

/-- Claim C5: from a flat state, a true previous-bar entry signal opens a
trade at the bar's own open price and date and the state becomes long; at
bar 0 no entry can occur (a one-bar run trades nothing); consequently when
the aligned entry signal is first true at bar `k` with `k + 1` still in
range, the first trade ever recorded has entry date and entry price of bar
`k + 1`. -/
theorem next_bar_entry :
    (∀ (s : SimState) (bar : Bar) (px : Bool), s.current_position = none →
        (simStep s bar true px).current_position
            = some (openedTrade bar.date bar.«open») ∧
        (simStep s bar true px).trades = s.trades) ∧
    (∀ (initial_capital : ℚ) (b : Bar) (signals : List SigRow),
        (runState initial_capital [b] signals).trades = [] ∧
        (runState initial_capital [b] signals).current_position = none) ∧
    (∀ (initial_capital : ℚ) (df : List Bar) (signals : List SigRow) (k : ℕ),
        df.map (·.date) = signals.map (·.date) →
        k + 1 < df.length →
        (∀ j, j < k → (signals.getD j ⟨0, false, false⟩).entry = false) →
        (signals.getD k ⟨0, false, false⟩).entry = true →
        ∃ t, (runState initial_capital df signals).trades.head? = some t ∧
          t.entry_date = (df.getD (k + 1) ⟨0, 0, 0, 0, 0, 0⟩).date ∧
          t.entry_price = (df.getD (k + 1) ⟨0, 0, 0, 0, 0, 0⟩).«open») := by
  refine ⟨fun s bar px h => simStep_flat_entry s bar px h, ?_, ?_⟩
  · intro initial_capital b signals
    have h1 := simStep_flat_no_entry (initState initial_capital) b false rfl
    refine ⟨?_, runState_position_none initial_capital [b] signals⟩
    show (forceClose [b] (simStep (initState initial_capital) b false false)).trades = []
    unfold forceClose
    rw [h1.1]
    show (simStep (initState initial_capital) b false false).trades = []
    rw [h1.2]
    rfl
  · intro initial_capital df signals k hal hk hfirst hkth
    have hlen : signals.length = df.length := by
      have h1 := congrArg List.length hal
      simpa using h1.symm
    have halign : alignSignals df signals = signals := by
      unfold alignSignals
      rw [if_pos hal]
    have hzslen : (df.zip (prevSignalPairs signals)).length = df.length := by
      rw [List.length_zip, prevSignalPairs]
      simp [hlen]
    have hpre : ∀ p ∈ (df.zip (prevSignalPairs signals)).take (k + 1), p.2.1 = false := by
      intro p hp
      obtain ⟨j, hjlt, hpj⟩ := List.getElem_of_mem hp
      have hjk : j < k + 1 := by
        rw [List.length_take, hzslen] at hjlt
        omega
      rw [List.getElem_take, List.getElem_zip] at hpj
      subst hpj
      cases j with
      | zero => rfl
      | succ m =>
          have hm : m < signals.length := by omega
          simp only [List.getElem_zip, prevSignalPairs, List.getElem_cons_succ,
            List.getElem_map]
          have hf := hfirst m (by omega)
          rw [List.getD_eq_getElem _ _ hm] at hf
          exact hf
    have hklt : k + 1 < (df.zip (prevSignalPairs signals)).length := by
      rw [hzslen]
      exact hk
    have hkS : k < signals.length := by omega
    have hkentry : (signals[k]).entry = true := by
      rw [List.getD_eq_getElem _ _ hkS] at hkth
      exact hkth
    have hzk : (df.zip (prevSignalPairs signals))[k + 1]
        = (df[k + 1], ((signals[k]).entry, (signals[k]).exit)) := by
      rw [List.getElem_zip]
      simp only [prevSignalPairs, List.getElem_cons_succ, List.getElem_map]
    have hdropk : (df.zip (prevSignalPairs signals)).drop (k + 1)
        = (df[k + 1], true, (signals[k]).exit)
            :: (df.zip (prevSignalPairs signals)).drop (k + 2) := by
      rw [List.drop_eq_getElem_cons hklt, hzk, hkentry]
    have hrun : runState initial_capital df signals
        = forceClose df
            (runBars
              (runBars (initState initial_capital)
                ((df.zip (prevSignalPairs signals)).take (k + 1)))
              ((df.zip (prevSignalPairs signals)).drop (k + 1))) := by
      rw [runState, runLoopState, halign, ← runBars_append, List.take_append_drop]
    obtain ⟨hpos1, htr1⟩ := runBars_flat ((df.zip (prevSignalPairs signals)).take (k + 1))
      (initState initial_capital) hpre rfl
    obtain ⟨hpos2, htr2⟩ := simStep_flat_entry
      (runBars (initState initial_capital)
        ((df.zip (prevSignalPairs signals)).take (k + 1)))
      (df[k + 1]) ((signals[k]).exit) hpos1
    have hfirstTrade : FirstTradeIs (runState initial_capital df signals)
        (df[k + 1]).date (df[k + 1]).«open» := by
      rw [hrun, hdropk]
      apply forceClose_firstTrade
      show FirstTradeIs (runBars (simStep _ (df[k + 1]) true ((signals[k]).exit)) _) _ _
      apply runBars_firstTrade
      exact Or.inl ⟨htr2.trans htr1, openedTrade (df[k + 1]).date (df[k + 1]).«open»,
        hpos2, rfl, rfl⟩
    obtain ⟨t, hh, hd, hp⟩ := firstTrade_head _ _ _ hfirstTrade
      (runState_position_none initial_capital df signals)
    refine ⟨t, hh, ?_, ?_⟩
    · rw [List.getD_eq_getElem _ _ hk]
      exact hd
    · rw [List.getD_eq_getElem _ _ hk]
      exact hp

/-- Claim C5 witness: the first-trade clause of the theorem applied to the
concrete run, with `k = 0`. -/
theorem next_bar_entry_witness :
    ∃ t, (runState 100000 dfC5 sigC5).trades.head? = some t ∧
      t.entry_date = (dfC5.getD 1 ⟨0, 0, 0, 0, 0, 0⟩).date ∧
      t.entry_price = (dfC5.getD 1 ⟨0, 0, 0, 0, 0, 0⟩).«open» :=
  next_bar_entry.2.2 100000 dfC5 sigC5 0 (by decide) (by decide)
    (fun j hj => absurd hj (Nat.not_lt_zero j)) (by decide)

/-- Claim C8: every run ends flat — an open position after the last bar is
force-closed at the final bar's close price (not its open) and final date,
compounding capital by the ordinary exit rule — and every trade in the
returned ledger carries all four exit fields, the force-closed trade being
the ledger's last with exit date equal to the last bar's date. -/
theorem force_close_invariant (initial_capital : ℚ) (df : List Bar) (signals : List SigRow) :
    (runState initial_capital df signals).current_position = none ∧
    (∀ t ∈ (runState initial_capital df signals).trades,
        t.exit_date.isSome ∧ t.exit_price.isSome ∧ t.pnl.isSome ∧ t.return_pct.isSome) ∧
    (∀ (t : Trade) (b : Bar),
        (runLoopState initial_capital df signals).current_position = some t →
        df.getLast? = some b →
        (runState initial_capital df signals).trades.getLast?
            = some (closedTrade t b.date b.close) ∧
        (runState initial_capital df signals).capital
            = (runLoopState initial_capital df signals).capital
              * (1 + ((b.close - t.entry_price) / t.entry_price * 100) / 100)) := by
  refine ⟨runState_position_none initial_capital df signals, ?_, ?_⟩
  · exact forceClose_allClosed _ _
      (runBars_allClosed _ _ (by intro t ht; simp [initState] at ht))
  · intro t b hpos hb
    have hrs : runState initial_capital df signals
        = exit_position (runLoopState initial_capital df signals) b.date b.close := by
      unfold runState forceClose
      rw [hpos, hb]
    constructor
    · rw [hrs]
      unfold exit_position
      rw [hpos]
      simp
    · rw [hrs]
      unfold exit_position
      rw [hpos]

/-- Claim C8 witness: the force-close clause applied to the concrete run
that ends long. -/
theorem force_close_invariant_witness :
    (runState 100000 dfC8 sigC8).trades.getLast?
        = some (closedTrade (openedTrade 1 20) 1 22) ∧
    (runState 100000 dfC8 sigC8).capital
        = (runLoopState 100000 dfC8 sigC8).capital
          * (1 + ((22 - (openedTrade 1 20).entry_price)
              / (openedTrade 1 20).entry_price * 100) / 100) :=
  (force_close_invariant 100000 dfC8 sigC8).2.2 (openedTrade 1 20)
    { date := 1, «open» := 20, high := 21, low := 19, close := 22, volume := 1000 }
    (by decide) (by decide)

end StratComp

